import Mathlib

/-!
Verification development for the document-QA backend: the streaming Ollama
chat client (`backend/ai/ollama_client.py`), the text chunker
(`backend/pdf_handler.py`), the ChromaDB-backed vector store wrapper
(`backend/vector_db.py`) and the retrieval-augmented QA orchestration
(`backend/ai/qa.py`).  Each Python function is shallowly embedded as an
executable Lean definition; external collaborators (the HTTP transport, the
ChromaDB collection store, hashlib, the embedding models) appear either as
parameters of the definitions or as small models of their documented
interface contracts, noted at each definition.
-/

namespace SchoolLLM

/-! ## Python string primitives

Python strings index and slice by code point, so they are embedded as
`String` (a packed `List Char`) with the Python operations spelled out over
the character list.  (The core `String.trim`/`String.take`/`String.splitOn`
are byte-position based and not used.) -/

/-- Python `str.strip()` whitespace test, restricted to the ASCII whitespace
characters (space, tab, newline, carriage return, vertical tab, form feed);
the source never feeds the exotic Unicode whitespace cases. -/
def pyWs (c : Char) : Bool :=
  c = ' ' || c = '\t' || c = '\n' || c = '\r' || c = '\x0b' || c = '\x0c'

/-- Python `s.strip()` on a character list: drop leading then trailing
whitespace. -/
def pyStrip (l : List Char) : List Char :=
  ((l.dropWhile pyWs).reverse.dropWhile pyWs).reverse

/-- Python `s.strip()` on a packed string. -/
def pyStripS (s : String) : String :=
  ⟨pyStrip s.data⟩

/-- Python `s[:n]` for `n ≥ 0`: the first `n` code points. -/
def pyTake (s : String) (n : Nat) : String :=
  ⟨s.data.take n⟩

/-- Python `s.split("\n")`: split at every newline, keeping empty parts. -/
def splitNl : List Char → List (List Char)
  | [] => [[]]
  | c :: rest =>
      match splitNl rest, decide (c = '\n') with
      | r :: rs, true => [] :: r :: rs
      | r :: rs, false => (c :: r) :: rs
      | [], _ => [[c]]

/-! ## Streaming chat client (`OllamaClient._stream_chat`)

The HTTP transport is external (`requests`); what the Python code observes
from it is: whether the connection was established, the response status, the
sequence of lines yielded by `resp.iter_lines()` before the stream ended, and
whether the stream ended by closing normally or by a read-timeout exception.
That observable history is the input of the embedded function. -/

/-- One line yielded by `resp.iter_lines()`.  A `record` is a line that
`json.loads` parses, with `token` the value of `chunk["message"]["content"]`
(`""` when absent, as `chunk.get("message", {}).get("content", "")` yields)
and `done` the truthiness of `chunk.get("done")`.  `notJson` is a non-empty
line on which `json.loads` raises.  `empty` is a falsy line, skipped by
`if not line: continue`. -/
inductive StreamLine where
  | record (token : String) (done : Bool)
  | notJson
  | empty
deriving DecidableEq

/-- How the line iterator ended (when not exited early by a `done` record):
the stream closed, or `requests.exceptions.Timeout` was raised after the
listed lines had been yielded. -/
inductive StreamEnding where
  | closed
  | timedOut
deriving DecidableEq

/-- Observable behaviour of `requests.post(..., stream=True)`:
`refused` models `requests.exceptions.ConnectionError` at connect time;
`ok status lines ending` models an established response with the given
HTTP status whose body yields `lines` and then ends as `ending`. -/
inductive ConnResult where
  | refused
  | ok (status : Nat) (lines : List StreamLine) (ending : StreamEnding)
deriving DecidableEq

/-- Result of `OllamaClient._stream_chat`.  `success` is a normal return;
`connectError` is the re-raised "Cannot connect to Ollama" exception;
`timeoutError` is the re-raised "Ollama timed out" exception (zero fragments);
`parseError` is an uncaught `json.JSONDecodeError` escaping the function;
`httpError` is an uncaught `requests.exceptions.HTTPError` from
`resp.raise_for_status()`. -/
inductive ChatOutcome where
  | success (content : String)
  | connectError
  | timeoutError
  | parseError
  | httpError
deriving DecidableEq

/-- The `for line in resp.iter_lines()` loop of `_stream_chat`, carrying the
`content_parts` accumulator.  A `record` appends its token when non-empty,
then breaks when `done`, returning `"".join(content_parts).strip()`.  An
`empty` line is skipped.  A `notJson` line makes `json.loads` raise
`json.JSONDecodeError`, which none of the `except` clauses catch.  When the
lines are exhausted: a closed stream falls through to the final
`return "".join(content_parts).strip()`; a timeout is caught and returns the
joined parts when any were accumulated, else re-raises as a timeout error. -/
def streamLoop : List StreamLine → List String → StreamEnding → ChatOutcome
  | [], parts, .closed => .success (pyStripS (String.join parts))
  | [], parts, .timedOut =>
      if parts.isEmpty then .timeoutError
      else .success (pyStripS (String.join parts))
  | .empty :: rest, parts, ending => streamLoop rest parts ending
  | .notJson :: _, _, _ => .parseError
  | .record token done :: rest, parts, ending =>
      let parts' := if token = "" then parts else parts ++ [token]
      if done then .success (pyStripS (String.join parts'))
      else streamLoop rest parts' ending

/-- `OllamaClient._stream_chat`, as a function of the transport's observable
behaviour.  `raise_for_status` raises exactly for statuses in `[400, 600)`. -/
def streamChat : ConnResult → ChatOutcome
  | .refused => .connectError
  | .ok status lines ending =>
      if 400 ≤ status ∧ status < 600 then .httpError
      else streamLoop lines [] ending

/-- The content fragments the loop accumulates from a line sequence:
the non-empty tokens of its parsed records. -/
def accumTokens : List StreamLine → List String
  | [] => []
  | .record token _ :: rest =>
      if token = "" then accumTokens rest else token :: accumTokens rest
  | .empty :: rest => accumTokens rest
  | .notJson :: rest => accumTokens rest

/-- `true` when some line would stop the loop before the lines are exhausted:
a malformed line (uncaught parse error) or a record with the done flag set. -/
def hasStopper : List StreamLine → Bool
  | [] => false
  | .record _ done :: rest => done || hasStopper rest
  | .notJson :: _ => true
  | .empty :: rest => hasStopper rest

/-! ## Text chunker (`PDFHandler.chunk_text`)

Python integers are unbounded and may go negative here (the next start
offset is `end - overlap`), so offsets are embedded as `Int`, and Python's
negative-index and slice-clamping semantics are embedded explicitly.
Text is embedded as `List Char` (Python strings index by code point). -/

/-- Python `s[i]` for `int` index `i`: negative indices count from the end;
out-of-range indexing raises `IndexError`, embedded as `none`. -/
def pyCharAt (l : List Char) (i : Int) : Option Char :=
  if 0 ≤ i then l.get? i.toNat
  else if 0 ≤ i + l.length then l.get? (i + l.length).toNat
  else none

/-- Python slice-endpoint normalisation for a string of length `n`:
negative endpoints are shifted by `n` then clamped to `[0, n]`. -/
def clampIdx (n : Nat) (i : Int) : Nat :=
  if i < 0 then (max 0 (i + n)).toNat else min i.toNat n

/-- Python `s[i:j]` for `int` endpoints. -/
def pySlice (l : List Char) (i j : Int) : List Char :=
  (l.take (clampIdx l.length j)).drop (clampIdx l.length i)

/-- The `for i in range(end, max(start, end - 100), -1)` lookback scan:
`fuel` is the number of indices in the (descending) range and `i` the
current index.  `some (some e)` is a break with the snapped end `e = i + 1`;
`some none` means the range was exhausted without a break; `none` is an
`IndexError` from `text[i]`. -/
def scanBreak (text : List Char) : Nat → Int → Option (Option Int)
  | 0, _ => some none
  | fuel + 1, i =>
      match pyCharAt text i with
      | none => none
      | some c =>
          if c = '.' || c = '!' || c = '?' || c = '\n' then some (some (i + 1))
          else scanBreak text fuel (i - 1)

/-- One chunk record as built by `chunk_text`
(`{"chunk_id", "text", "start_pos", "end_pos", "length"}`). -/
structure PChunk where
  chunk_id : Nat
  text : List Char
  start_pos : Int
  end_pos : Int
  length : Nat
deriving DecidableEq, Repr

/-- The end-offset computation of one `chunk_text` iteration: the naive end
`start + chunk_size`, snapped backward to just after a sentence-terminal
character when it falls inside the text and the 100-character lookback finds
one.  `none` is an uncaught `IndexError` from the scan. -/
def chunkEnd (chunkSize : Nat) (text : List Char) (start : Int) : Option Int :=
  let n : Int := text.length
  let end0 : Int := start + chunkSize
  if end0 < n then
    match scanBreak text (end0 - max start (end0 - 100)).toNat end0 with
    | none => none
    | some none => some end0
    | some (some e) => some e
  else some end0

/-- One iteration of the `while start < len(text)` body, from the current
start offset: computes `end`, the stripped chunk text
`text[start:end].strip()`, and the next start offset `end - overlap`.
`none` is an uncaught `IndexError`. -/
def chunkStep (chunkSize overlap : Nat) (text : List Char) (start : Int) :
    Option (List Char × Int × Int) :=
  match chunkEnd chunkSize text start with
  | none => none
  | some e => some (pyStrip (pySlice text start e), e, e - overlap)

/-- How a run of `chunk_text` ends: a normal return of the chunk list, or an
uncaught `IndexError`. -/
inductive RunResult where
  | ok (chunks : List PChunk)
  | indexError
deriving DecidableEq, Repr

/-- The `while start < len(text)` loop of `chunk_text`, with `fuel` bounding
the number of iterations: `none` means the loop had not terminated after
`fuel` iterations.  A chunk is appended only when its stripped text is
non-empty, and only then is `chunk_id` incremented. -/
def chunkLoop (chunkSize overlap : Nat) (text : List Char) :
    Nat → Int → Nat → List PChunk → Option RunResult
  | fuel, start, cid, acc =>
      if start < (text.length : Int) then
        match fuel with
        | 0 => none
        | fuel' + 1 =>
            match chunkStep chunkSize overlap text start with
            | none => some .indexError
            | some (ct, e, start') =>
                if ct.isEmpty then chunkLoop chunkSize overlap text fuel' start' cid acc
                else chunkLoop chunkSize overlap text fuel' start' (cid + 1)
                  (acc ++ [⟨cid, ct, start, e, ct.length⟩])
      else some (.ok acc)

/-- `PDFHandler.chunk_text`, run with `fuel` iterations allowed. -/
def chunk_text (chunkSize overlap : Nat) (text : List Char) (fuel : Nat) :
    Option RunResult :=
  chunkLoop chunkSize overlap text fuel 0 0 []

/-! ## Vector store wrapper (`VectorDB`, `backend/vector_db.py`)

ChromaDB is external; it is modelled from its documented interface contract
(spec §4.3/§6): a persistent mapping from collection names to unordered
stores of `(id, document, embedding, metadata)` entries, where writing a
batch replaces any prior entries with the same ids, and a query returns the
`n_results` entries closest to the query embedding.  The distance function
of the `hnsw:space = cosine` index and the embedding model are opaque
external computations, so both are parameters (`dist`, `embed`).  `embed`
models `VectorDB.get_embeddings` on its success path: a deterministic
per-text vector (the Ollama variant maps each text through one HTTP call,
the sentence-transformers variant encodes the batch element-wise). -/

/-- One stored item of a ChromaDB collection. -/
structure Entry where
  id : String
  document : String
  embedding : List ℚ
  metadata : List (String × Nat)
deriving DecidableEq

/-- The persistent client state: an association list from collection name to
collection contents. -/
abbrev DBState := List (String × List Entry)

/-- Name lookup in the collection store. -/
def lookupColl : DBState → String → Option (List Entry)
  | [], _ => none
  | (k, v) :: rest, name => if k = name then some v else lookupColl rest name

/-- Replace the contents of every collection named `name`. -/
def setColl : DBState → String → List Entry → DBState
  | [], _, _ => []
  | (k, v) :: rest, name, c =>
      if k = name then (k, c) :: setColl rest name c
      else (k, v) :: setColl rest name c

/-- `chromadb` `get_or_create_collection`: return the existing collection, or
create an empty one (the returned state reflects the creation side effect). -/
def getOrCreateCollection (st : DBState) (name : String) : List Entry × DBState :=
  match lookupColl st name with
  | some c => (c, st)
  | none => ([], st ++ [(name, [])])

/-- `VectorDB.create_collection_name`: `f"pdf_{md5(pdf_url).hexdigest()}"`.
`hashlib.md5` is an external primitive; it is modelled as an injective
deterministic encoding of the URL, which preserves the properties the code
relies on (same URL → same name, and distinct names for distinct URLs). -/
def create_collection_name (pdf_url : String) : String :=
  "pdf_" ++ pdf_url

/-- The entry batch built inside `VectorDB.add_documents`: ids are
`f"chunk_{i}"`, documents the chunk texts, embeddings from the provider, and
metadata the caller's list (index-aligned) or the default
`[{"chunk_index": i}]`. -/
def mkEntries (embed : String → List ℚ) (chunks : List String)
    (metadata : Option (List (List (String × Nat)))) : List Entry :=
  chunks.enum.map fun p =>
    { id := "chunk_" ++ toString p.1
      document := p.2
      embedding := embed p.2
      metadata :=
        match metadata with
        | some m => (m.get? p.1).getD []
        | none => [("chunk_index", p.1)] }

/-- ChromaDB collection write (modelled from the spec's index contract):
writing a batch of entries replaces any prior entries with the same ids. -/
def collectionAdd (newEntries old : List Entry) : List Entry :=
  old.filter (fun e => !(newEntries.any (fun e2 => e2.id == e.id))) ++ newEntries

/-- `VectorDB.add_documents`: resolve the collection name, get-or-create the
collection, embed the chunks, and write the batch.  Returns the collection
name (as the Python function does) and the new client state. -/
def add_documents (embed : String → List ℚ) (st : DBState) (pdf_url : String)
    (chunks : List String) (metadata : Option (List (List (String × Nat)))) :
    String × DBState :=
  let name := create_collection_name pdf_url
  let (coll, st1) := getOrCreateCollection st name
  let entries := mkEntries embed chunks metadata
  (name, setColl st1 name (collectionAdd entries coll))

/-- Insert an entry into a list sorted by ascending distance to `q`. -/
def insertByDist (dist : List ℚ → List ℚ → ℚ) (q : List ℚ) (e : Entry) :
    List Entry → List Entry
  | [] => [e]
  | e2 :: rest =>
      if dist q e.embedding ≤ dist q e2.embedding then e :: e2 :: rest
      else e2 :: insertByDist dist q e rest

/-- Sort a collection by ascending distance to the query embedding (the
similarity ranking the cosine index produces). -/
def sortByDist (dist : List ℚ → List ℚ → ℚ) (q : List ℚ) :
    List Entry → List Entry
  | [] => []
  | e :: rest => insertByDist dist q e (sortByDist dist q rest)

/-- The parallel arrays `query_documents` returns
(`documents` / `distances` / `metadatas`). -/
structure QueryResult where
  documents : List String
  distances : List ℚ
  metadatas : List (List (String × Nat))
deriving DecidableEq

/-- `VectorDB.query_documents`: get-or-create the collection (the creation
side effect is in the returned state); if it is empty return the empty
result; otherwise embed the query and return the
`min n_results (collection.count())` closest entries. -/
def query_documents (embed : String → List ℚ) (dist : List ℚ → List ℚ → ℚ)
    (st : DBState) (pdf_url query : String) (n_results : Nat) :
    QueryResult × DBState :=
  let name := create_collection_name pdf_url
  let (coll, st1) := getOrCreateCollection st name
  if coll.length = 0 then (⟨[], [], []⟩, st1)
  else
    let qe := embed query
    let top := (sortByDist dist qe coll).take (min n_results coll.length)
    (⟨top.map (·.document), top.map (fun e => dist qe e.embedding),
      top.map (·.metadata)⟩, st1)

/-- `VectorDB.collection_exists`: `any(col.name == name for col in
self.client.list_collections())`.  A pure read of the client state. -/
def collection_exists (st : DBState) (pdf_url : String) : Bool :=
  st.any (fun p => p.1 == create_collection_name pdf_url)

/-! ## Embedding providers (`OllamaClient.embeddings`,
`VectorDB.get_embeddings`) -/

/-- `OllamaClient.embeddings`: one `POST /api/embeddings` per text, in input
order; `post t` is the parsed JSON response's `"embedding"` field (`none`
when absent), and `data.get("embedding") or []` yields `[]` for an absent
field.  Network failures would propagate as exceptions outside this
success-path model. -/
def ollamaEmbeddings (post : String → Option (List ℚ)) : List String → List (List ℚ)
  | [] => []
  | t :: ts => (post t).getD [] :: ollamaEmbeddings post ts

/-- `VectorDB.get_embeddings`: dispatch on the configured provider string;
`"ollama"` delegates to `OllamaClient.embeddings`, otherwise the
sentence-transformers model encodes the batch (`localEncode`, an external
model call, is a parameter; `none` models an uninitialised model, which
raises).  `Except` carries the raised error message. -/
def get_embeddings (provider : String)
    (localEncode : Option (List String → List (List ℚ)))
    (post : String → Option (List ℚ)) (texts : List String) :
    Except String (List (List ℚ)) :=
  if provider = "ollama" then .ok (ollamaEmbeddings post texts)
  else
    match localEncode with
    | none => .error "Sentence-Transformers model not initialized"
    | some enc => .ok (enc texts)

/-! ## RAG orchestration (`QASystem`, `backend/ai/qa.py`)

`ollama_client.chat` is the streaming client invocation; its outcome for a
given message list is the `chat` parameter (`.ok answer` for a normal return,
`.error msg` for a raised exception). -/

/-- One `{"role": ..., "content": ...}` chat message. -/
structure ChatMsg where
  role : String
  content : String
deriving DecidableEq

/-- The dictionary `answer_question` returns.  The zero-context early return
carries no `num_sources` key, hence the `Option`. -/
structure AnswerResult where
  answer : String
  sources : List String
  confidence : String
  num_sources : Option Nat
deriving DecidableEq

/-- `QASystem.answer_question`: retrieve the 2 most relevant chunks; with no
context, return the fixed low-confidence answer without calling the chat
backend; otherwise trim each context to 300 characters, build the numbered
context block, keep the last one exchange (`conversation_history[-2:]`) of
history, invoke chat, and package answer, top-3 sources and the
`high`/`medium`/`low` confidence heuristic.  Any exception `e` is re-raised
as `Exception(f"Failed to answer question: {e}")`. -/
def answer_question (embed : String → List ℚ) (dist : List ℚ → List ℚ → ℚ)
    (chat : List ChatMsg → Except String String) (st : DBState)
    (pdf_url question : String) (history : List ChatMsg) :
    Except String (AnswerResult × DBState) :=
  let (searchResults, st1) := query_documents embed dist st pdf_url question 2
  let contexts := searchResults.documents
  if contexts.isEmpty then
    .ok ({ answer := "I don't have enough context from this PDF to answer that question. Please make sure the PDF has been processed."
           sources := []
           confidence := "low"
           num_sources := none }, st1)
  else
    let trimmed := contexts.map (fun ctx => pyTake ctx 300)
    let contextText := String.intercalate "\n"
      (trimmed.enum.map fun p => "[" ++ toString (p.1 + 1) ++ "] " ++ p.2)
    let messages :=
      [⟨"system", "Answer using ONLY the context. Be brief."⟩]
        ++ history.drop (history.length - 2)
        ++ [⟨"user", contextText ++ "\n\nQ: " ++ question⟩]
    match chat messages with
    | .error e => .error ("Failed to answer question: " ++ e)
    | .ok answer =>
        .ok ({ answer := answer
               sources := contexts.take 3
               confidence :=
                 if contexts.length ≥ 3 then "high"
                 else if contexts.length ≥ 1 then "medium"
                 else "low"
               num_sources := some contexts.length }, st1)

/-- The message list `get_suggested_questions` sends to the chat client,
after truncating the text sample to 5000 characters. -/
def suggestionMessages (pdf_text_sample : String) : List ChatMsg :=
  let sample :=
    if pdf_text_sample.length > 5000 then pyTake pdf_text_sample 5000
    else pdf_text_sample
  [⟨"system", "You are an educational assistant helping students learn."⟩,
   ⟨"user", "Based on this educational content, suggest 5 interesting questions a student might ask:\n\nContent:\n"
      ++ sample
      ++ "\n\nGenerate 5 specific, thoughtful questions that would help students understand this material better.\nFormat: Return only the questions, one per line, without numbering."⟩]

/-- `QASystem.get_suggested_questions`: invoke chat on the suggestion prompt;
split the reply on newlines, strip each line, keep the non-blank ones
(`[q.strip() for q in content.split("\n") if q.strip()]`), and return the
first 5.  Any exception is caught and the empty list returned. -/
def get_suggested_questions (chat : List ChatMsg → Except String String)
    (pdf_text_sample : String) : List String :=
  match chat (suggestionMessages pdf_text_sample) with
  | .error _ => []
  | .ok content =>
      ((((splitNl content.data).map pyStrip).filter (fun q => q ≠ [])).take 5).map
        (fun l => (⟨l⟩ : String))

/-! ## Concrete instances used in counterexamples and witnesses -/

/-- A text on which `chunk_text(chunk_size=10, chunk_overlap=5)` loops
forever: the sentence break right after `"a."` keeps snapping `end` to 2,
so the next start offset stays at `2 - 5 = -3` on every iteration. -/
def loopText : List Char := "a.bbbbbbbbbbbbbbbbbbbb".toList

/-- A concrete embedding provider. -/
def embed0 : String → List ℚ := fun _ => []

/-- A concrete distance function. -/
def dist0 : List ℚ → List ℚ → ℚ := fun _ _ => 0

/-- A chat backend that always answers `"x"`. -/
def chat0 : List ChatMsg → Except String String := fun _ => .ok "x"

/-- A chat backend that always raises. -/
def chatErr0 : List ChatMsg → Except String String := fun _ => .error "boom"

/-- A chat backend that answers two suggestion lines. -/
def chatOk0 : List ChatMsg → Except String String := fun _ => .ok "q1\nq2"

/-- A concrete embedding endpoint: only the text `"a"` has an `"embedding"`
field in its response. -/
def post0 : String → Option (List ℚ) := fun t => if t = "a" then some [1] else none

/-- A concrete local encoder honouring the one-vector-per-text contract. -/
def enc0 : List String → List (List ℚ) := fun ts => ts.map (fun _ => [])

/-- The fixed zero-context early return of `answer_question`. -/
def earlyAnswer : AnswerResult :=
  { answer := "I don't have enough context from this PDF to answer that question. Please make sure the PDF has been processed."
    sources := []
    confidence := "low"
    num_sources := none }

/-! ## Streaming client lemmas and claims C1, C2 -/

theorem streamLoop_parseError (pre post : List StreamLine) (parts : List String)
    (ending : StreamEnding) (hpre : hasStopper pre = false) :
    streamLoop (pre ++ .notJson :: post) parts ending = .parseError := by
  induction pre generalizing parts with
  | nil => rfl
  | cons l rest ih =>
      cases l with
      | record token done =>
          simp only [hasStopper, Bool.or_eq_false_iff] at hpre
          simp only [List.cons_append, streamLoop, hpre.1, if_false]
          exact ih _ hpre.2
      | notJson => simp [hasStopper] at hpre
      | empty =>
          simp only [hasStopper] at hpre
          simpa only [List.cons_append, streamLoop] using ih parts hpre

theorem streamLoop_timedOut (lines : List StreamLine) (parts : List String)
    (h : hasStopper lines = false) :
    streamLoop lines parts .timedOut =
      if (parts ++ accumTokens lines).isEmpty then .timeoutError
      else .success (pyStripS (String.join (parts ++ accumTokens lines))) := by
  induction lines generalizing parts with
  | nil => simp [streamLoop, accumTokens]
  | cons l rest ih =>
      cases l with
      | record token done =>
          simp only [hasStopper, Bool.or_eq_false_iff] at h
          simp only [streamLoop, accumTokens, h.1, if_false]
          by_cases ht : token = ""
          · simp only [ht, if_true]
            exact ih parts h.2
          · simp only [ht, if_false]
            rw [ih (parts ++ [token]) h.2]
            simp
      | notJson => simp [hasStopper] at h
      | empty =>
          simp only [hasStopper] at h
          simp only [streamLoop, accumTokens]
          exact ih parts h

/-- Claim C1, as stated, is false: a line that is not valid JSON makes
`json.loads` raise an error that no `except` clause of `_stream_chat`
catches, so the stream aborts with a parse error instead of skipping the
line and returning the remaining content. -/
theorem c1_malformed_line_cex :
    streamChat (.ok 200 [.notJson, .record "hi" true] .closed) = .parseError
      ∧ streamChat (.ok 200 [.notJson, .record "hi" true] .closed)
          ≠ .success "hi" := by
  constructor
  · rfl
  · decide

/-- Claim C1 amended: on a successful response, a non-empty line that is not
valid JSON aborts the stream with an uncaught parse error (the chat call
fails); only empty (falsy) lines are skipped silently. -/
theorem c1_malformed_line_amended :
    (∀ (status : Nat) (pre post : List StreamLine) (ending : StreamEnding),
        status < 400 → hasStopper pre = false →
        streamChat (.ok status (pre ++ .notJson :: post) ending) = .parseError)
      ∧ (∀ (rest : List StreamLine) (parts : List String) (ending : StreamEnding),
          streamLoop (.empty :: rest) parts ending = streamLoop rest parts ending) := by
  constructor
  · intro status pre post ending hstatus hpre
    simp only [streamChat, if_neg (by omega : ¬(400 ≤ status ∧ status < 600))]
    exact streamLoop_parseError pre post [] ending hpre
  · intro rest parts ending
    rfl

theorem c1_malformed_line_amended_witness :
    streamChat (.ok 200 ([.record "ok" false] ++ .notJson :: [.record "hi" true]) .closed)
      = .parseError :=
  c1_malformed_line_amended.1 200 [.record "ok" false] [.record "hi" true] .closed
    (by decide) (by decide)

/-- Claim C2 (amended): when a read timeout ends the stream, the chat call
returns the accumulated fragments joined and trimmed of surrounding
whitespace (the same `.strip()` the normal path applies) when at least one
fragment was accumulated, and raises the timeout error when none were. -/
theorem c2_timeout_partial_amended (status : Nat) (lines : List StreamLine)
    (hstatus : status < 400) (hlines : hasStopper lines = false) :
    streamChat (.ok status lines .timedOut) =
      if (accumTokens lines).isEmpty then .timeoutError
      else .success (pyStripS (String.join (accumTokens lines))) := by
  simp only [streamChat, if_neg (by omega : ¬(400 ≤ status ∧ status < 600))]
  simpa using streamLoop_timedOut lines [] hlines

/-- Claim C2, read as returning the verbatim concatenation of the fragments,
fails on fragments with surrounding whitespace: the code strips the joined
text, so one accumulated fragment `"a "` yields `"a"`, not `"a "`. -/
theorem c2_timeout_partial_cex :
    streamChat (.ok 200 [.record "a " false] .timedOut) = .success "a"
      ∧ String.join (accumTokens [.record "a " false]) = "a "
      ∧ ("a" : String) ≠ "a " := by
  refine ⟨rfl, rfl, by decide⟩

/-- The spec's scenario: three fragments accumulate and the stream then times
out — the call returns their concatenation, not an error; and with zero
fragments it is the timeout error. -/
theorem c2_timeout_partial_amended_witness :
    streamChat (.ok 200 [.record "x" false, .record "y" false, .record "z" false]
        .timedOut) = .success "xyz"
      ∧ streamChat (.ok 200 [] .timedOut) = .timeoutError := by
  constructor
  · exact (c2_timeout_partial_amended 200 _ (by decide) (by decide)).trans (by decide)
  · exact (c2_timeout_partial_amended 200 [] (by decide) (by decide)).trans (by decide)

/-! ## Chunker lemmas and claims C4, C5 -/

theorem chunkLoop_loopText_stuck (fuel : Nat) (cid : Nat) (acc : List PChunk) :
    chunkLoop 10 5 loopText fuel (-3) cid acc = none := by
  induction fuel generalizing cid acc with
  | zero =>
      rw [chunkLoop]
      rw [if_pos (by decide)]
  | succ f ih =>
      rw [chunkLoop]
      rw [if_pos (by decide)]
      have hstep : chunkStep 10 5 loopText (-3) = some ([], 2, -3) := by decide
      rw [hstep]
      simpa using ih cid acc

/-- Claim C4 fails on the code: with `chunk_size = 10` and `chunk_overlap = 5`
(a configuration satisfying `0 ≤ overlap < chunk_size`), `chunk_text` never
terminates on `loopText` — the loop does not complete within any number of
iterations, because the sentence-break snap moves the end offset back to 2
and the next start offset `end - overlap = -3` stops advancing. -/
theorem c4_chunk_text_diverges :
    (∀ fuel : Nat, chunk_text 10 5 loopText fuel = none) ∧ 5 < 10 := by
  refine ⟨fun fuel => ?_, by decide⟩
  cases fuel with
  | zero =>
      rw [chunk_text, chunkLoop]
      rw [if_pos (by decide)]
  | succ f =>
      rw [chunk_text, chunkLoop]
      rw [if_pos (by decide)]
      have hstep : chunkStep 10 5 loopText 0 = some (['a', '.'], 0 + 2, -3) := by decide
      rw [hstep]
      simpa using chunkLoop_loopText_stuck f 1 [⟨0, ['a', '.'], 0, 0 + 2, 2⟩]

theorem dropWhile_append_nonWs (pre : List Char) (c : Char) (h : pyWs c = false) :
    ∃ m, (pre ++ [c]).dropWhile pyWs = m ++ [c] := by
  induction pre with
  | nil => exact ⟨[], by simp [List.dropWhile, h]⟩
  | cons a t ih =>
      by_cases ha : pyWs a = true
      · simpa [List.dropWhile, ha] using ih
      · exact ⟨a :: t, by simp [List.dropWhile, Bool.of_not_eq_true ha]⟩

theorem pyStrip_append_nonWs (l : List Char) (c : Char) (h : pyWs c = false) :
    ∃ m, pyStrip (l ++ [c]) = m ++ [c] := by
  obtain ⟨m, hm⟩ := dropWhile_append_nonWs l c h
  refine ⟨m, ?_⟩
  rw [pyStrip, hm]
  have hrev : (m ++ [c]).reverse = c :: m.reverse := by simp
  rw [hrev, List.dropWhile_cons, h]
  simp

theorem drop_getLast (l : List Char) (k : Nat) (c : Char)
    (hk : k < l.length) (hl : l.getLast? = some c) :
    ∃ m, l.drop k = m ++ [c] := by
  induction l generalizing k with
  | nil => simp at hk
  | cons a t ih =>
      cases k with
      | zero =>
          exact ⟨(a :: t).dropLast, by
            simpa using (List.dropLast_append_getLast? c (Option.mem_def.mpr hl)).symm⟩
      | succ k' =>
          simp only [List.length_cons, Nat.succ_lt_succ_iff] at hk
          have ht : t ≠ [] := by
            intro he
            rw [he] at hk
            simp at hk
          obtain ⟨b, t', rfl⟩ := List.exists_cons_of_ne_nil ht
          rw [List.getLast?_cons_cons] at hl
          exact ih k' hk hl

theorem pySlice_tail (l : List Char) (start e : Int) (c : Char)
    (hl : l.getLast? = some c) (hstart : start < (l.length : Int))
    (he : (l.length : Int) ≤ e) :
    ∃ m, pySlice l start e = m ++ [c] := by
  have hne : l ≠ [] := by
    intro h
    rw [h] at hl
    simp [List.getLast?] at hl
  have hn : 0 < l.length := List.length_pos.mpr hne
  have hj : clampIdx l.length e = l.length := by
    unfold clampIdx
    split <;> omega
  have hi : clampIdx l.length start < l.length := by
    unfold clampIdx
    split <;> omega
  rw [pySlice, hj, List.take_length]
  exact drop_getLast l _ c hi hl

theorem chunkStep_shape (cs ov : Nat) (text : List Char) (start : Int)
    (ct : List Char) (e s' : Int)
    (h : chunkStep cs ov text start = some (ct, e, s')) :
    ct = pyStrip (pySlice text start e) ∧ s' = e - ov := by
  rw [chunkStep] at h
  cases he : chunkEnd cs text start with
  | none => rw [he] at h; exact absurd h (by simp)
  | some e0 =>
      rw [he] at h
      simp only [Option.some.injEq, Prod.mk.injEq] at h
      obtain ⟨h1, h2, h3⟩ := h
      subst h2
      exact ⟨h1.symm, h3.symm⟩

theorem chunkStep_exit (cs ov : Nat) (text : List Char) (start : Int)
    (ct : List Char) (e s' : Int) (c : Char)
    (h : chunkStep cs ov text start = some (ct, e, s'))
    (hlast : text.getLast? = some c) (hws : pyWs c = false)
    (hstart : start < (text.length : Int)) (hs' : ¬ s' < (text.length : Int)) :
    ct ≠ [] ∧ (text.length : Int) ≤ e := by
  obtain ⟨hct, hs⟩ := chunkStep_shape cs ov text start ct e s' h
  have he : (text.length : Int) ≤ e := by omega
  obtain ⟨m, hm⟩ := pySlice_tail text start e c hlast hstart he
  obtain ⟨m', hm'⟩ := pyStrip_append_nonWs m c hws
  refine ⟨?_, he⟩
  rw [hct, hm, hm']
  simp

theorem chunkLoop_last_end (cs ov : Nat) (text : List Char) (c : Char)
    (hlast : text.getLast? = some c) (hws : pyWs c = false) :
    ∀ (fuel : Nat) (start : Int) (cid : Nat) (acc : List PChunk) (out : List PChunk),
      chunkLoop cs ov text fuel start cid acc = some (.ok out) →
      start < (text.length : Int) →
      ∃ ch, out.getLast? = some ch ∧ (text.length : Int) ≤ ch.end_pos := by
  intro fuel
  induction fuel with
  | zero =>
      intro start cid acc out h hstart
      rw [chunkLoop, if_pos hstart] at h
      exact absurd h (by simp)
  | succ f ih =>
      intro start cid acc out h hstart
      rw [chunkLoop, if_pos hstart] at h
      cases hstep : chunkStep cs ov text start with
      | none => rw [hstep] at h; exact absurd h (by simp)
      | some v =>
          obtain ⟨ct, e, s'⟩ := v
          rw [hstep] at h
          dsimp only at h
          by_cases hs' : s' < (text.length : Int)
          · cases hempty : ct.isEmpty with
            | true =>
                rw [if_pos hempty] at h
                exact ih s' cid acc out h hs'
            | false =>
                rw [if_neg (by simp [hempty])] at h
                exact ih s' (cid + 1) _ out h hs'
          · obtain ⟨hne, he⟩ := chunkStep_exit cs ov text start ct e s' c hstep hlast hws hstart hs'
            have hempty : ct.isEmpty = false := by
              simpa [List.isEmpty_iff] using hne
            rw [if_neg (by simp [hempty])] at h
            rw [chunkLoop.eq_def] at h
            dsimp only at h
            rw [if_neg hs'] at h
            simp only [Option.some.injEq, RunResult.ok.injEq] at h
            exact ⟨⟨cid, ct, start, e, ct.length⟩, by rw [← h]; simp, he⟩

/-- Claim C5, as stated, is false: for `text = "ab"` with `chunk_size = 10`,
`overlap = 0`, the run terminates with a single chunk whose recorded
`end_pos` is the unclamped naive end `10`, not `len(text) = 2`. -/
theorem c5_last_end_pos_cex :
    chunk_text 10 0 "ab".toList 2
        = some (.ok [⟨0, "ab".toList, 0, 10, 2⟩])
      ∧ ("ab".toList.length : Int) = 2 ∧ (10 : Int) ≠ 2 := by
  refine ⟨by decide, by decide, by decide⟩

/-- Claim C5 amended: for a valid configuration and a text whose final
character is not whitespace, any terminating run of `chunk_text` produces a
non-empty chunk list whose last chunk's `end_pos` is at least `len(text)`
(the recorded end offset is the iteration's end offset, which is not clamped
to the text length and in general exceeds it). -/
theorem c5_last_end_pos_amended (cs ov : Nat) (text : List Char) (fuel : Nat)
    (out : List PChunk) (c : Char) (_hov : ov < cs)
    (hrun : chunk_text cs ov text fuel = some (.ok out))
    (hlast : text.getLast? = some c) (hws : pyWs c = false) :
    ∃ ch, out.getLast? = some ch ∧ (text.length : Int) ≤ ch.end_pos := by
  have hne : text ≠ [] := by
    intro h
    rw [h] at hlast
    simp [List.getLast?] at hlast
  have hpos : (0 : Int) < (text.length : Int) := by
    have := List.length_pos.mpr hne
    omega
  exact chunkLoop_last_end cs ov text c hlast hws fuel 0 0 [] out hrun hpos

theorem c5_last_end_pos_amended_witness :
    ∃ ch, ([⟨0, "ab".toList, 0, 10, 2⟩] : List PChunk).getLast? = some ch
      ∧ (("ab".toList.length : Nat) : Int) ≤ ch.end_pos :=
  c5_last_end_pos_amended 10 0 "ab".toList 2 [⟨0, "ab".toList, 0, 10, 2⟩] 'b'
    (by decide) (by decide) (by decide) (by decide)

/-! ## Vector store lemmas and claims C6, C7, C8 -/

theorem lookupColl_setColl (st : DBState) (name : String) (x c : List Entry)
    (h : lookupColl st name = some x) :
    lookupColl (setColl st name c) name = some c := by
  induction st with
  | nil => simp [lookupColl] at h
  | cons p rest ih =>
      obtain ⟨k, v⟩ := p
      by_cases hk : k = name
      · simp [lookupColl, setColl, hk]
      · rw [lookupColl, if_neg hk] at h
        simp only [setColl, if_neg hk, lookupColl]
        exact ih h

theorem lookupColl_append_new (st : DBState) (name : String)
    (h : lookupColl st name = none) :
    lookupColl (st ++ [(name, [])]) name = some [] := by
  induction st with
  | nil => simp [lookupColl]
  | cons p rest ih =>
      obtain ⟨k, v⟩ := p
      by_cases hk : k = name
      · rw [lookupColl, if_pos hk] at h
        exact absurd h (by simp)
      · rw [lookupColl, if_neg hk] at h
        simp only [List.cons_append, lookupColl]
        rw [if_neg hk]
        exact ih h

theorem setColl_setColl (st : DBState) (name : String) (a b : List Entry) :
    setColl (setColl st name a) name b = setColl st name b := by
  induction st with
  | nil => rfl
  | cons p rest ih =>
      obtain ⟨k, v⟩ := p
      by_cases hk : k = name
      · simp only [setColl, if_pos hk, ih]
      · simp only [setColl, if_neg hk, ih]

theorem collectionAdd_idem (newEntries c : List Entry) :
    collectionAdd newEntries (collectionAdd newEntries c)
      = collectionAdd newEntries c := by
  unfold collectionAdd
  rw [List.filter_append, List.filter_filter]
  have h2 : newEntries.filter
      (fun e => !(newEntries.any (fun e2 => e2.id == e.id))) = [] := by
    rw [List.filter_eq_nil_iff]
    intro e he
    simp only [Bool.not_eq_true', Bool.not_eq_false]
    exact List.any_eq_true.mpr ⟨e, he, by simp⟩
  rw [h2]
  simp [Bool.and_self]

theorem add_documents_idem (embed : String → List ℚ) (st : DBState)
    (url : String) (chunks : List String)
    (md : Option (List (List (String × Nat)))) :
    add_documents embed (add_documents embed st url chunks md).2 url chunks md
      = add_documents embed st url chunks md := by
  unfold add_documents getOrCreateCollection
  cases h : lookupColl st (create_collection_name url) with
  | some c0 =>
      simp only [h]
      rw [lookupColl_setColl st _ c0 _ h]
      simp only [collectionAdd_idem, setColl_setColl]
  | none =>
      simp only [h]
      rw [lookupColl_setColl _ _ [] _ (lookupColl_append_new st _ h)]
      simp only [collectionAdd_idem, setColl_setColl]

/-- Claim C6: re-upserting the same document with the same chunks and
(deterministically re-computed) vectors leaves the store state unchanged —
the batch overwrites the prior entries at the same chunk ids with identical
content — so every subsequent search returns the same results as after one
upsert. -/
theorem c6_add_documents_idempotent :
    ∀ (embed : String → List ℚ) (st : DBState) (url : String)
      (chunks : List String) (md : Option (List (List (String × Nat)))),
      add_documents embed (add_documents embed st url chunks md).2 url chunks md
          = add_documents embed st url chunks md
        ∧ ∀ (dist : List ℚ → List ℚ → ℚ) (url2 q : String) (k : Nat),
            query_documents embed dist
                (add_documents embed (add_documents embed st url chunks md).2
                  url chunks md).2 url2 q k
              = query_documents embed dist
                  (add_documents embed st url chunks md).2 url2 q k := by
  intro embed st url chunks md
  refine ⟨add_documents_idem embed st url chunks md, ?_⟩
  intro dist url2 q k
  rw [add_documents_idem embed st url chunks md]

theorem query_documents_empty (embed : String → List ℚ)
    (dist : List ℚ → List ℚ → ℚ) (st : DBState) (url q : String) (k : Nat)
    (h : lookupColl st (create_collection_name url) = none
      ∨ lookupColl st (create_collection_name url) = some []) :
    (query_documents embed dist st url q k).1 = ⟨[], [], []⟩ := by
  rcases h with h | h
  · simp [query_documents, getOrCreateCollection, h]
  · simp [query_documents, getOrCreateCollection, h]

/-- Claim C7: a search against a collection that does not exist, or that
exists but holds zero items, returns the empty parallel arrays and raises no
error (the empty-count check precedes the query-embedding call). -/
theorem c7_query_empty_or_missing (embed : String → List ℚ)
    (dist : List ℚ → List ℚ → ℚ) (st : DBState) (url q : String) (k : Nat)
    (h : lookupColl st (create_collection_name url) = none
      ∨ lookupColl st (create_collection_name url) = some []) :
    (query_documents embed dist st url q k).1 = ⟨[], [], []⟩ :=
  query_documents_empty embed dist st url q k h

theorem c7_query_empty_or_missing_witness :
    (query_documents embed0 dist0 [] "u" "q" 5).1 = ⟨[], [], []⟩ :=
  c7_query_empty_or_missing embed0 dist0 [] "u" "q" 5 (Or.inl rfl)

/-- Claim C8, as stated, is false: `query_documents` resolves its collection
with `get_or_create_collection`, so a search for an identifier that was
never upserted creates a new (empty) collection as a side effect — the set
of stored collections grows from `[]` to one entry. -/
theorem c8_search_creates_collection_cex :
    (query_documents embed0 dist0 [] "u" "q" 5).2
        = [(create_collection_name "u", [])]
      ∧ (query_documents embed0 dist0 [] "u" "q" 5).2 ≠ ([] : DBState) := by
  exact ⟨rfl, by decide⟩

theorem collection_exists_eq_false (st : DBState) (url : String)
    (h : lookupColl st (create_collection_name url) = none) :
    collection_exists st url = false := by
  induction st with
  | nil => rfl
  | cons p rest ih =>
      obtain ⟨k, v⟩ := p
      by_cases hk : k = create_collection_name url
      · rw [lookupColl, if_pos hk] at h
        exact absurd h (by simp)
      · rw [lookupColl, if_neg hk] at h
        simp only [collection_exists, List.any_cons]
        rw [Bool.or_eq_false_iff]
        exact ⟨by simpa using hk, ih h⟩

/-- Claim C8 amended: the existence check is side-effect free, but a search
on a never-upserted identifier does create its (empty) collection: the
resulting state is the old one extended with the new empty collection, while
the search itself still returns the empty result. -/
theorem c8_lazy_creation_amended (embed : String → List ℚ)
    (dist : List ℚ → List ℚ → ℚ) (st : DBState) (url q : String) (k : Nat)
    (h : lookupColl st (create_collection_name url) = none) :
    (query_documents embed dist st url q k).2
        = st ++ [(create_collection_name url, [])]
      ∧ (query_documents embed dist st url q k).1 = ⟨[], [], []⟩
      ∧ collection_exists st url = false := by
  refine ⟨?_, query_documents_empty embed dist st url q k (Or.inl h),
    collection_exists_eq_false st url h⟩
  simp [query_documents, getOrCreateCollection, h]

theorem c8_lazy_creation_amended_witness :
    (query_documents embed0 dist0 [] "u2" "q" 5).2
        = [] ++ [(create_collection_name "u2", [])]
      ∧ collection_exists [] "u2" = false := by
  have h := c8_lazy_creation_amended embed0 dist0 [] "u2" "q" 5 rfl
  exact ⟨h.1, h.2.2⟩

/-! ## Retrieval and QA lemmas, claims C3, C9, C10 -/

theorem insertByDist_length (dist : List ℚ → List ℚ → ℚ) (q : List ℚ)
    (e : Entry) (l : List Entry) :
    (insertByDist dist q e l).length = l.length + 1 := by
  induction l with
  | nil => rfl
  | cons e2 rest ih =>
      rw [insertByDist]
      split
      · simp
      · simp [ih]

theorem sortByDist_length (dist : List ℚ → List ℚ → ℚ) (q : List ℚ)
    (l : List Entry) : (sortByDist dist q l).length = l.length := by
  induction l with
  | nil => rfl
  | cons e rest ih => rw [sortByDist, insertByDist_length, ih, List.length_cons]

theorem query_documents_num_docs (embed : String → List ℚ)
    (dist : List ℚ → List ℚ → ℚ) (st : DBState) (url q : String) (n : Nat) :
    (query_documents embed dist st url q n).1.documents.length ≤ n := by
  rcases hg : getOrCreateCollection st (create_collection_name url) with ⟨coll, st1⟩
  rw [query_documents, hg]
  dsimp only
  by_cases hc : coll.length = 0
  · rw [if_pos hc]
    simp
  · rw [if_neg hc]
    simp only [List.length_map, List.length_take, sortByDist_length]
    omega

/-- Claim C3: `answer_question` can never report `"high"` confidence —
retrieval is fixed at `n_results = 2` and the search clamps the result count
to at most that, so at most 2 contexts are returned, the reported number of
sources is 1 or 2 in the non-empty case, the confidence is `"medium"` when
any context was returned and `"low"` when none were. -/
theorem c3_confidence_never_high (embed : String → List ℚ)
    (dist : List ℚ → List ℚ → ℚ) (chat : List ChatMsg → Except String String)
    (st : DBState) (url question : String) (hist : List ChatMsg)
    (r : AnswerResult) (st2 : DBState)
    (h : answer_question embed dist chat st url question hist = .ok (r, st2)) :
    r.confidence ≠ "high"
      ∧ (r.sources = [] → r.confidence = "low")
      ∧ (r.sources ≠ [] → r.confidence = "medium")
      ∧ (∀ k, r.num_sources = some k → 1 ≤ k ∧ k ≤ 2) := by
  have hlen := query_documents_num_docs embed dist st url question 2
  rcases hq : query_documents embed dist st url question 2 with ⟨sr, st1⟩
  rw [hq] at hlen
  dsimp only at hlen
  rw [answer_question, hq] at h
  dsimp only at h
  by_cases hemp : sr.documents.isEmpty
  · rw [if_pos hemp] at h
    simp only [Except.ok.injEq, Prod.mk.injEq] at h
    obtain ⟨hr, _⟩ := h
    subst hr
    refine ⟨by decide, fun _ => rfl, fun hs => absurd rfl hs, fun k hk => by simp at hk⟩
  · rw [if_neg hemp] at h
    cases hchat : chat _ with
    | error e =>
        rw [hchat] at h
        exact absurd h (by simp)
    | ok ans =>
        rw [hchat] at h
        simp only [Except.ok.injEq, Prod.mk.injEq] at h
        obtain ⟨hr, _⟩ := h
        subst hr
        have hne : sr.documents ≠ [] := by
          simpa [List.isEmpty_iff] using hemp
        have h1 : 1 ≤ sr.documents.length := by
          cases hd : sr.documents with
          | nil => exact absurd hd hne
          | cons a t => simp
        have h3 : ¬ sr.documents.length ≥ 3 := by omega
        refine ⟨?_, ?_, ?_, ?_⟩
        · simp only [if_neg h3, if_pos h1]
          decide
        · intro hs
          rw [List.take_eq_nil_iff] at hs
          rcases hs with h | h
          all_goals first
            | exact absurd h hne
            | exact absurd h (by omega)
        · intro _
          simp only [if_neg h3, if_pos h1]
        · intro k hk
          simp only [Option.some.injEq] at hk
          omega

theorem c3_confidence_never_high_witness :
    answer_question embed0 dist0 chat0 [] "u" "w" []
        = .ok (earlyAnswer, [(create_collection_name "u", [])])
      ∧ earlyAnswer.confidence ≠ "high" :=
  ⟨rfl, (c3_confidence_never_high embed0 dist0 chat0 [] "u" "w" [] earlyAnswer
    [(create_collection_name "u", [])] rfl).1⟩

theorem ollamaEmbeddings_length (post : String → Option (List ℚ))
    (texts : List String) :
    (ollamaEmbeddings post texts).length = texts.length := by
  induction texts with
  | nil => rfl
  | cons t ts ih => simp [ollamaEmbeddings, ih]

theorem ollamaEmbeddings_get? (post : String → Option (List ℚ))
    (texts : List String) (i : Nat) :
    (ollamaEmbeddings post texts).get? i
      = (texts.get? i).map (fun t => (post t).getD []) := by
  induction texts generalizing i with
  | nil => rfl
  | cons t ts ih =>
      cases i with
      | zero => rfl
      | succ i' => simpa [ollamaEmbeddings] using ih i'

/-- Claim C9: the embedding operation is length- and order-preserving — it
returns exactly one vector per input text, the `i`-th vector being the one
extracted from the backend response for the `i`-th text, with a response
lacking the `"embedding"` field yielding the empty vector at that position;
the provider dispatcher preserves this for the remote variant, and length
preservation for the local variant under its batch-encoding contract. -/
theorem c9_embeddings_length_order :
    ∀ (post : String → Option (List ℚ)) (texts : List String),
      (ollamaEmbeddings post texts).length = texts.length
        ∧ (∀ i : Nat, (ollamaEmbeddings post texts).get? i
            = (texts.get? i).map (fun t => (post t).getD []))
        ∧ get_embeddings "ollama" none post texts
            = .ok (ollamaEmbeddings post texts)
        ∧ (∀ (provider : String) (enc : List String → List (List ℚ)),
            (∀ ts, (enc ts).length = ts.length) →
            ∀ res, get_embeddings provider (some enc) post texts = .ok res →
              res.length = texts.length) := by
  intro post texts
  refine ⟨ollamaEmbeddings_length post texts, ollamaEmbeddings_get? post texts,
    by simp [get_embeddings], ?_⟩
  intro provider enc henc res hres
  rw [get_embeddings] at hres
  by_cases hp : provider = "ollama"
  · rw [if_pos hp] at hres
    simp only [Except.ok.injEq] at hres
    rw [← hres]
    exact ollamaEmbeddings_length post texts
  · rw [if_neg hp] at hres
    simp only [Except.ok.injEq] at hres
    rw [← hres]
    exact henc texts

theorem c9_embeddings_length_order_witness :
    (ollamaEmbeddings post0 ["a", "b"]).length = 2
      ∧ (ollamaEmbeddings post0 ["a", "b"]).get? 0 = some [(1 : ℚ)]
      ∧ (ollamaEmbeddings post0 ["a", "b"]).get? 1 = some []
      ∧ (∀ ts, (enc0 ts).length = ts.length)
      ∧ (enc0 ["a", "b"]).length = 2 := by
  have h := c9_embeddings_length_order post0 ["a", "b"]
  have henc : ∀ ts, (enc0 ts).length = ts.length := by
    intro ts
    simp [enc0]
  refine ⟨h.1, (h.2.1 0).trans (by decide), (h.2.1 1).trans (by decide), henc,
    h.2.2.2 "st" enc0 henc (enc0 ["a", "b"]) rfl⟩

/-- Claim C10: `get_suggested_questions` never propagates an exception — any
chat failure yields the empty list — and on success it returns at most 5
questions, each a non-blank stripped line of the model output. -/
theorem c10_suggested_questions_safe
    (chat : List ChatMsg → Except String String) (sample : String) :
    (∀ e, chat (suggestionMessages sample) = .error e →
        get_suggested_questions chat sample = [])
      ∧ (get_suggested_questions chat sample).length ≤ 5
      ∧ (∀ q, q ∈ get_suggested_questions chat sample → q ≠ "")
      ∧ (∀ content, chat (suggestionMessages sample) = .ok content →
          ∀ q, q ∈ get_suggested_questions chat sample →
            ∃ l, l ∈ splitNl content.data ∧ q = (⟨pyStrip l⟩ : String)) := by
  cases hchat : chat (suggestionMessages sample) with
  | error e =>
      refine ⟨fun _ _ => by rw [get_suggested_questions, hchat], ?_, ?_, ?_⟩
      · rw [get_suggested_questions, hchat]
        simp
      · intro q hq
        rw [get_suggested_questions, hchat] at hq
        simp at hq
      · intro content hcontent
        exact absurd hcontent (by simp)
  | ok content =>
      have hval : get_suggested_questions chat sample
          = ((((splitNl content.data).map pyStrip).filter
              (fun q => q ≠ [])).take 5).map (fun l => (⟨l⟩ : String)) := by
        rw [get_suggested_questions, hchat]
      refine ⟨?_, ?_, ?_, ?_⟩
      · intro e he
        exact absurd he (by simp)
      · rw [hval]
        simp only [List.length_map, List.length_take]
        omega
      · intro q hq
        rw [hval] at hq
        simp only [List.mem_map] at hq
        obtain ⟨l, hl, rfl⟩ := hq
        have hl2 := List.take_subset 5 _ hl
        have hl3 := List.of_mem_filter hl2
        simp only [ne_eq, decide_not, Bool.not_eq_true', decide_eq_false_iff_not] at hl3
        intro hcon
        exact hl3 (by simpa [String.ext_iff] using hcon)
      · intro content2 hcontent2 q hq
        simp only [Except.ok.injEq] at hcontent2
        subst hcontent2
        rw [hval] at hq
        simp only [List.mem_map] at hq
        obtain ⟨l, hl, rfl⟩ := hq
        have hl2 := List.take_subset 5 _ hl
        have hl3 := List.mem_of_mem_filter hl2
        simp only [List.mem_map] at hl3
        obtain ⟨l0, hl0, rfl⟩ := hl3
        exact ⟨l0, hl0, rfl⟩

theorem c10_suggested_questions_safe_witness :
    get_suggested_questions chatErr0 "s" = []
      ∧ (get_suggested_questions chatOk0 "s").length ≤ 5
      ∧ ("q1" : String) ≠ ""
      ∧ (∃ l, l ∈ splitNl ("q1\nq2" : String).data
          ∧ ("q1" : String) = (⟨pyStrip l⟩ : String)) := by
  have herr := c10_suggested_questions_safe chatErr0 "s"
  have hok := c10_suggested_questions_safe chatOk0 "s"
  refine ⟨herr.1 "boom" rfl, hok.2.1, ?_, ?_⟩
  · exact hok.2.2.1 "q1" (by decide)
  · exact hok.2.2.2 "q1\nq2" rfl "q1" (by decide)

end SchoolLLM
